import Mathlib

/-!
# Verification of the drudid ingestion pipeline

Shallow embedding of the three-stage pipeline in `src/drudid/dataset.py`
(stages `pull`, `merge`, `convert`) together with the configuration values
of `src/drudid/config.py`, and proofs of the specified properties.

External collaborators (httpx, orjson, pandas, the filesystem, the Fetcher)
are modelled explicitly: JSON documents as an inductive `JVal`,
`orjson.dumps` as a canonical serializer, the page store as an association
list, pandas data frames as a column list plus record rows, and the
Fetcher as an oracle supplying per-request outcomes.
-/

namespace Drudid

/-- JSON values as handled by `orjson.loads` / `httpx.Response.json()`.
Numbers are modelled as integers (the payloads relevant to the pipeline
carry integral numbers; floats are not needed by any claim). -/
inductive JVal where
  | null
  | bool (b : Bool)
  | num (n : Int)
  | str (s : String)
  | arr (elts : List JVal)
  | obj (fields : List (String × JVal))

/-- Decidable equality for `JVal` (mutual recursion through the nested
lists). -/
def JVal.beq : JVal → JVal → Bool
  | .null, .null => true
  | .bool a, .bool b => a == b
  | .num a, .num b => a == b
  | .str a, .str b => a == b
  | .arr a, .arr b => beqList a b
  | .obj a, .obj b => beqFields a b
  | _, _ => false
where
  beqList : List JVal → List JVal → Bool
    | [], [] => true
    | x :: xs, y :: ys => x.beq y && beqList xs ys
    | _, _ => false
  beqFields : List (String × JVal) → List (String × JVal) → Bool
    | [], [] => true
    | (k, v) :: xs, (l, w) :: ys => k == l && v.beq w && beqFields xs ys
    | _, _ => false

mutual

theorem JVal.beq_iff : ∀ a b : JVal, JVal.beq a b = true ↔ a = b
  | .null, b => by cases b <;> simp [JVal.beq]
  | .bool x, b => by cases b <;> simp [JVal.beq]
  | .num x, b => by cases b <;> simp [JVal.beq]
  | .str x, b => by cases b <;> simp [JVal.beq]
  | .arr xs, b => by
      cases b <;> simp [JVal.beq]
      exact JVal.beqList_iff xs _
  | .obj xs, b => by
      cases b <;> simp [JVal.beq]
      exact JVal.beqFields_iff xs _

theorem JVal.beqList_iff : ∀ xs ys : List JVal, JVal.beq.beqList xs ys = true ↔ xs = ys
  | [], ys => by cases ys <;> simp [JVal.beq.beqList]
  | x :: xs, ys => by
      cases ys with
      | nil => simp [JVal.beq.beqList]
      | cons y ys =>
          simp [JVal.beq.beqList, JVal.beq_iff x y, JVal.beqList_iff xs ys]

theorem JVal.beqFields_iff :
    ∀ xs ys : List (String × JVal), JVal.beq.beqFields xs ys = true ↔ xs = ys
  | [], ys => by cases ys <;> simp [JVal.beq.beqFields]
  | (k, v) :: xs, ys => by
      cases ys with
      | nil => simp [JVal.beq.beqFields]
      | cons y ys =>
          obtain ⟨l, w⟩ := y
          simp [JVal.beq.beqFields, JVal.beq_iff v w, JVal.beqFields_iff xs ys,
            Prod.ext_iff, and_assoc]

end

instance : DecidableEq JVal := fun a b =>
  decidable_of_iff (JVal.beq a b = true) (JVal.beq_iff a b)

/-- Serialization of one character inside a JSON string, as `orjson.dumps`
renders it (quote and backslash escaped; other characters verbatim —
control-character and non-ASCII escaping is not needed by any claim). -/
def escChar (c : Char) : String :=
  if c = '"' then "\\\""
  else if c = '\\' then "\\\\"
  else String.singleton c

/-- JSON string-body serialization. -/
def escString (s : String) : String :=
  String.join (s.toList.map escChar)

mutual

/-- `orjson.dumps`: compact serialization, no whitespace, keys in the
order they occur in the parsed document. -/
def dumps : JVal → String
  | .null => "null"
  | .bool true => "true"
  | .bool false => "false"
  | .num n => toString n
  | .str s => "\"" ++ escString s ++ "\""
  | .arr l => "[" ++ dumpsElems l ++ "]"
  | .obj l => "\x7b" ++ dumpsFields l ++ "\x7d"

/-- Comma-separated serialization of array elements. -/
def dumpsElems : List JVal → String
  | [] => ""
  | [x] => dumps x
  | x :: y :: xs => dumps x ++ "," ++ dumpsElems (y :: xs)

/-- Comma-separated serialization of object members. -/
def dumpsFields : List (String × JVal) → String
  | [] => ""
  | [(k, v)] => "\"" ++ escString k ++ "\":" ++ dumps v
  | (k, v) :: y :: xs => "\"" ++ escString k ++ "\":" ++ dumps v ++ "," ++ dumpsFields (y :: xs)

end

/-- Whitespace skipping of a JSON scanner. -/
def skipWs : List Char → List Char
  | c :: cs => if c = ' ' ∨ c = '\t' ∨ c = '\n' ∨ c = '\r' then skipWs cs else c :: cs
  | [] => []

/-- Decoding of a JSON string escape `\c` (unicode `\uXXXX` escapes
are not modelled; no claim needs them). -/
def escDecode (c : Char) : Option Char :=
  if c = '"' then some '"'
  else if c = '\\' then some '\\'
  else if c = '/' then some '/'
  else if c = 'n' then some '\n'
  else if c = 't' then some '\t'
  else if c = 'r' then some '\r'
  else if c = 'b' then some (Char.ofNat 8)
  else if c = 'f' then some (Char.ofNat 12)
  else none

/-- Scan the body of a JSON string up to the closing quote; returns the
decoded characters and the remaining input. -/
def parseStrChars : List Char → Option (List Char × List Char)
  | [] => none
  | '"' :: cs => some ([], cs)
  | '\\' :: c :: cs =>
      match escDecode c with
      | some d => (parseStrChars cs).map fun r => (d :: r.1, r.2)
      | none => none
  | c :: cs => (parseStrChars cs).map fun r => (c :: r.1, r.2)

/-- Split a leading run of decimal digits off the input. -/
def parseDigits : List Char → List Char × List Char
  | c :: cs =>
      if c.isDigit then
        let r := parseDigits cs
        (c :: r.1, r.2)
      else ([], c :: cs)
  | [] => ([], [])

/-- Value of a digit string. -/
def digitsToNat (ds : List Char) : Nat :=
  ds.foldl (fun a c => 10 * a + (c.toNat - 48)) 0

/-- The opening-brace character. -/
def lbrace : Char := Char.ofNat 123

/-- The closing-brace character. -/
def rbrace : Char := Char.ofNat 125

mutual

/-- Recursive-descent JSON parser (fuel-bounded), modelling the parse
performed by `httpx.Response.json()` / `orjson.loads`. Returns the parsed
value and the unconsumed input. -/
def parseVal : Nat → List Char → Option (JVal × List Char)
  | 0, _ => none
  | fuel + 1, input =>
    match skipWs input with
    | [] => none
    | 'n' :: 'u' :: 'l' :: 'l' :: cs => some (.null, cs)
    | 't' :: 'r' :: 'u' :: 'e' :: cs => some (.bool true, cs)
    | 'f' :: 'a' :: 'l' :: 's' :: 'e' :: cs => some (.bool false, cs)
    | '"' :: cs => (parseStrChars cs).map fun r => (.str (String.mk r.1), r.2)
    | '-' :: cs =>
        match parseDigits cs with
        | ([], _) => none
        | (ds, rest) => some (.num (-(digitsToNat ds : Int)), rest)
    | '[' :: cs =>
        (match skipWs cs with
         | ']' :: cs2 => some (.arr [], cs2)
         | _ => parseElems fuel cs [])
    | c :: cs =>
        if c = lbrace then
          match skipWs cs with
          | c2 :: cs2 =>
              if c2 = rbrace then some (.obj [], cs2)
              else parseFields fuel (c2 :: cs2) []
          | [] => none
        else if c.isDigit then
          match parseDigits (c :: cs) with
          | ([], _) => none
          | (ds, rest) => some (.num (digitsToNat ds : Int), rest)
        else none

/-- Parse the remaining elements of a JSON array (after the opening
bracket), accumulating parsed elements. -/
def parseElems : Nat → List Char → List JVal → Option (JVal × List Char)
  | 0, _, _ => none
  | fuel + 1, input, acc =>
    match parseVal fuel input with
    | none => none
    | some (v, rest) =>
        match skipWs rest with
        | c :: cs =>
            if c = ',' then parseElems fuel cs (acc ++ [v])
            else if c = ']' then some (.arr (acc ++ [v]), cs)
            else none
        | [] => none

/-- Parse the remaining members of a JSON object (after the opening
brace), accumulating parsed members. -/
def parseFields : Nat → List Char → List (String × JVal) → Option (JVal × List Char)
  | 0, _, _ => none
  | fuel + 1, input, acc =>
    match skipWs input with
    | '"' :: cs =>
        match parseStrChars cs with
        | none => none
        | some (kcs, rest) =>
            match skipWs rest with
            | ':' :: cs2 =>
                match parseVal fuel cs2 with
                | none => none
                | some (v, rest2) =>
                    match skipWs rest2 with
                    | c :: cs3 =>
                        if c = ',' then
                          parseFields fuel cs3 (acc ++ [(String.mk kcs, v)])
                        else if c = rbrace then
                          some (.obj (acc ++ [(String.mk kcs, v)]), cs3)
                        else none
                    | [] => none
            | _ => none
    | _ => none

end

/-- Parse a complete JSON document, requiring all input (up to trailing
whitespace) to be consumed. -/
def json_parse (s : String) : Option JVal :=
  match parseVal (s.length + 1) s.toList with
  | some (v, rest) => if skipWs rest = [] then some v else none
  | none => none

/-! ## Configuration (`src/drudid/config.py`) and the pull stage -/

/-- The request-parameter mapping. The four base entries come from
`FETCHER_BASE_PARAMS` in `config.py`; `page` is the entry that `pull`
installs with `params["page"] = str(i)` (absent until then). -/
structure Params where
  resource : String
  type : String
  sort : String
  direction : String
  page : Option String
deriving DecidableEq, Repr

/-- `FETCHER_BASE_PARAMS` of `config.py` (no `page` entry yet). -/
def FETCHER_BASE_PARAMS : Params :=
  ⟨"node.json", "project_issue", "created", "ASC", none⟩

/-- A successful `httpx.Response`: the raw bytes of the body
(`response.content`, modelled as a string) and the parsed document
returned by `response.json()`. -/
structure Response where
  content : String
  json : JVal

/-- Modelled from the spec: the Fetcher of §4.1 (`src/drudid/fetcher.py`
is not among the provided sources). `fetch` is `Fetcher.fetch_data` — for
each parameter mapping either a successful response or a failure marker —
and `totalPages` is `Fetcher.get_total_pages`. `devMode` is the
`DEV_MODE` flag of `config.py`. -/
structure FetchEnv where
  fetch : Params → Option Response
  totalPages : Int
  devMode : Bool

/-- The relevant filesystem state for the pull stage: whether
`RAW_DATA_DIR` exists, and the page files `page_{i}.json` keyed by page
index (most recent write first; `List.lookup` therefore reads the current
content). -/
structure FileStore where
  rawDirExists : Bool
  pages : List (Int × String)
deriving DecidableEq, Repr

/-- The in-flight state of the pull loop. -/
structure PullLoopState where
  fs : FileStore
  params : Params
  fetchCalls : List Params
  writes : List Int
deriving Repr

/-- Observable outcome of one `pull` invocation: final filesystem, final
state of the module-level parameter mapping, the parameter value passed to
each `fetch_data` call (in order), the page indices written, and whether
the stage returned through the invalid-range branch. -/
structure PullResult where
  fs : FileStore
  params : Params
  fetchCalls : List Params
  writes : List Int
  configError : Bool
deriving Repr

/-- The integer interval `[s, e)` in ascending order — Python's
`range(s, e)` over ints. -/
def intRange (s e : Int) : List Int :=
  (List.range (e - s).toNat).map fun (k : Nat) => s + (k : Int)

/-- One iteration of the pull loop (`dataset.py` lines 95–110): skip when
the page file exists and `force` is false; otherwise set `params["page"]`,
call the Fetcher (the fixed `time.sleep(1)` has no modelled effect), and
on success write `orjson.dumps(response.json())` to `page_{i}.json`. -/
def pullStep (env : FetchEnv) (force : Bool) (st : PullLoopState) (i : Int) : PullLoopState :=
  if (st.fs.pages.lookup i).isSome && !force then st
  else
    match env.fetch { st.params with page := some (toString i) } with
    | some resp =>
        { fs := { st.fs with pages := (i, dumps resp.json) :: st.fs.pages },
          params := { st.params with page := some (toString i) },
          fetchCalls := st.fetchCalls ++ [{ st.params with page := some (toString i) }],
          writes := st.writes ++ [i] }
    | none =>
        { fs := st.fs,
          params := { st.params with page := some (toString i) },
          fetchCalls := st.fetchCalls ++ [{ st.params with page := some (toString i) }],
          writes := st.writes }

/-- Run the pull loop over `[s, e)`. -/
def pullLoop (env : FetchEnv) (force : Bool) (fs : FileStore) (params : Params)
    (s e : Int) : PullResult :=
  let fin := (intRange s e).foldl (pullStep env force) ⟨fs, params, [], []⟩
  ⟨fin.fs, fin.params, fin.fetchCalls, fin.writes, false⟩

/-- The `pull` command (`dataset.py` lines 63–110). `fs0` is the
filesystem on entry and `params0` the current value of the module-level
`FETCHER_BASE_PARAMS` dict (which `params = FETCHER_BASE_PARAMS` merely
aliases, so a previous run's `page` entry may still be present).
`RAW_DATA_DIR.mkdir(parents=True, exist_ok=True)` runs before the
page-range validation. -/
def pull (env : FetchEnv) (fs0 : FileStore) (params0 : Params)
    (startPage : Int) (endPage : Option Int) (force : Bool) : PullResult :=
  let fs1 : FileStore := { fs0 with rawDirExists := true }
  match endPage with
  | some e =>
      if e ≤ startPage then ⟨fs1, params0, [], [], true⟩
      else pullLoop env force fs1 params0 startPage e
  | none =>
      let e := if env.devMode then startPage + 1 else env.totalPages
      pullLoop env force fs1 params0 startPage e

/-! ## The merge stage (`dataset.py` lines 113–187) -/

/-- A record: one element of a page's `list` field, a JSON object given as
its key/value members (keys are unique, coming from a parsed JSON
object). -/
abbrev Record := List (String × JVal)

/-- A page file as the merge loop classifies it (lines 148–164):

* `parseError` — `orjson.loads` raises; the `except` logs and skips the file;
* `noList` — the document parses but the `"list"` key is not reachable
  (`"list" in items` false); a warning is logged and the file skipped;
* `badList` — `"list"` is present and truthy but `pd.DataFrame(items)`
  raises (the value is not a record list); the `except` logs and skips;
* `withList recs` — `"list"` holds an array of records (the shape the API
  contract of §6 promises); an empty array is falsy and yields no frame. -/
inductive PageFile where
  | parseError
  | noList
  | badList
  | withList (recs : List Record)
deriving DecidableEq

/-- A pandas data frame as the merge stage uses it: the column labels in
order, and the rows kept as their originating records — the cell of row
`r` at column `c` is `r.lookup c`, `none` standing for `NaN`. -/
structure DF where
  cols : List String
  recs : List Record
deriving DecidableEq

/-- The keys of a record, in order. -/
def recKeys (r : Record) : List String := r.map Prod.fst

/-- Append to `acc` the keys of `ks` not already present, in first-seen
order — the label-union behaviour of pandas. -/
def addNewKeys (acc ks : List String) : List String :=
  ks.foldl (fun a k => if k ∈ a then a else a ++ [k]) acc

/-- Column labels of `pd.DataFrame(recs)`: union of the records' keys in
first-appearance order. -/
def unionCols (recs : List Record) : List String :=
  recs.foldl (fun a r => addNewKeys a (recKeys r)) []

/-- `pd.DataFrame` on a non-empty list of records. -/
def mkDF (recs : List Record) : DF := ⟨unionCols recs, recs⟩

/-- `pd.concat(dfs, ignore_index=True)`: labels united in order of
appearance, rows concatenated (cells absent from a frame's columns read
back as `NaN`). -/
def dfConcat (dfs : List DF) : DF :=
  dfs.foldl (fun a d => ⟨addNewKeys a.cols d.cols, a.recs ++ d.recs⟩) ⟨[], []⟩

/-- The data frame the merge loop builds for one file, if any
(lines 148–164): `None` when the file is skipped or its list is empty. -/
def fileToDF : PageFile → Option DF
  | .parseError => none
  | .noList => none
  | .badList => none
  | .withList recs => if recs.isEmpty then none else some (mkDF recs)

/-- Rendering of one data-frame cell by `DataFrame.to_csv`: `NaN` and JSON
`null` print as the empty cell, booleans as Python booleans, numbers and
strings as themselves. (Nested arrays/objects are approximated by their
JSON serialization; no claim depends on them. The float promotion pandas
applies to integer columns containing `NaN` is likewise not modelled.) -/
def cellToCsv : Option JVal → String
  | none => ""
  | some .null => ""
  | some (.bool true) => "True"
  | some (.bool false) => "False"
  | some (.num n) => toString n
  | some (.str s) => s
  | some v => dumps v

/-- One `to_csv` call: `header = some cols` for the initial
`mode="w"` write (which emits the header line), `none` for an
appending `mode="a", header=False` write. -/
structure WriteEvent where
  header : Option (List String)
  rows : List (List String)
deriving DecidableEq

/-- Accumulator of the merge loop: the `first_chunk` flag, the
`total_rows` counter, and the `to_csv` calls issued so far. -/
structure MergeState where
  firstChunk : Bool
  totalRows : Nat
  events : List WriteEvent
deriving DecidableEq

/-- Observable outcome of one `merge` invocation. `noInput` is the
`"No files found to merge"` early return. -/
structure MergeResult where
  events : List WriteEvent
  totalRows : Nat
  noInput : Bool
deriving DecidableEq

/-- Fuel-driven worker for `chunksOf` (the fuel is an upper bound on the
list length, so the `0, l => [l]` arm is never reached on the intended
calls). -/
def chunksOfGo (n : Nat) : Nat → List α → List (List α)
  | _, [] => []
  | 0, l => [l]
  | fuel + 1, x :: xs =>
      if n = 0 then [x :: xs]
      else (x :: xs).take n :: chunksOfGo n fuel ((x :: xs).drop n)

/-- Slicing `files[chunk_start : chunk_start + chunk_size]` for
`chunk_start in range(0, total, chunk_size)`; meaningful for a positive
chunk size, which the theorems assume. -/
def chunksOf (n : Nat) (l : List α) : List (List α) :=
  chunksOfGo n l.length l

/-- The rows `to_csv` renders for a frame. -/
def dfCsvRows (d : DF) : List (List String) :=
  d.recs.map fun r => d.cols.map fun c => cellToCsv (r.lookup c)

/-- The body of the merge loop for one chunk (`dataset.py`
lines 143–185): build the per-file frames, and if any exist concatenate
them, add their row count, and write — with a header exactly when this is
the first non-empty chunk. (The explicit `del` / `gc.collect()` calls are
memory hints with no observable effect here.) -/
def mergeChunkStep (st : MergeState) (chunkFiles : List PageFile) : MergeState :=
  let chunkDfs := chunkFiles.filterMap fileToDF
  if chunkDfs.isEmpty then st
  else
    let chunkDf := dfConcat chunkDfs
    let rows := dfCsvRows chunkDf
    if st.firstChunk then
      { firstChunk := false, totalRows := st.totalRows + chunkDf.recs.length,
        events := st.events ++ [⟨some chunkDf.cols, rows⟩] }
    else
      { firstChunk := st.firstChunk, totalRows := st.totalRows + chunkDf.recs.length,
        events := st.events ++ [⟨none, rows⟩] }

/-- The `merge` command (`dataset.py` lines 113–187), as a function of the
page files found in `RAW_DATA_DIR` (in `glob` order). -/
def merge (chunkSize : Nat) (files : List PageFile) : MergeResult :=
  if files.isEmpty then ⟨[], 0, true⟩
  else
    let fin := (chunksOf chunkSize files).foldl mergeChunkStep ⟨true, 0, []⟩
    ⟨fin.events, fin.totalRows, false⟩

/-- The content of `merged.csv` after a merge run: the header line and
the accumulated data lines, or `none` when no write occurred. The rows of
later chunks appear exactly as their `to_csv` call emitted them — under
their own chunk's column schema. -/
def interimTable (res : MergeResult) : Option (List String × List (List String)) :=
  match res.events with
  | [] => none
  | e :: rest =>
      match e.header with
      | some cols => some (cols, e.rows ++ (rest.map WriteEvent.rows).flatten)
      | none => none

/-! ### Spec-side view of a merge run

The following definitions restate, in the spec's vocabulary, what one
batch contributes: the records of the batch, the union schema of the
batch, and the projected rows. They are used to compare the merge loop
against the schema-union policy the spec describes. -/

/-- The records a file contributes: the content of its `list` field, or
nothing for a skipped file. -/
def recsOf : PageFile → List Record
  | .withList recs => recs
  | _ => []

/-- The length of a file's `list` field — what the spec counts; zero for
a skipped file. -/
def listLen (f : PageFile) : Nat := (recsOf f).length

/-- All records contributed by the files of one batch, in file order. -/
def batchRecords (chunk : List PageFile) : List Record :=
  (chunk.map recsOf).flatten

/-- The union schema of one batch: the union of all field names of its
records, in first-appearance order. -/
def batchCols (chunk : List PageFile) : List String :=
  unionCols (batchRecords chunk)

/-- Whether a batch contributes at least one row. -/
def chunkHasData (chunk : List PageFile) : Bool :=
  !(batchRecords chunk).isEmpty

/-- The write a batch should produce per the spec: its records projected
into the batch's union schema (missing fields as empty cells), preceded by
a header line exactly when this is the first non-empty batch. -/
def specEvent (first : Bool) (chunk : List PageFile) : WriteEvent :=
  ⟨if first then some (batchCols chunk) else none,
   (batchRecords chunk).map fun r => (batchCols chunk).map fun c => cellToCsv (r.lookup c)⟩

/-- The writes of a run, per the spec: one per non-empty batch, the first
with a header. -/
def specEvents : Bool → List (List PageFile) → List WriteEvent
  | _, [] => []
  | first, c :: cs =>
      if chunkHasData c then specEvent first c :: specEvents false cs
      else specEvents first cs

/-! ## The convert stage (`dataset.py` lines 32–60 and 190–245) -/

/-- A pandas cell after a `dtype=str` read: a Python string or `NaN`. -/
inductive PValue where
  | text (s : String)
  | na
deriving DecidableEq, Repr

/-- A data frame of the convert stage. Because the frame is produced by a
`dtype=str` read, cell typing is carried by `PValue`; a column has uniform
text type when every one of its cells is a `text`. -/
structure PDFrame where
  cols : List String
  rows : List (List PValue)
deriving DecidableEq, Repr

/-- The default NA sentinel strings of pandas: with the default
`na_filter=True` / `keep_default_na=True`, `pd.read_csv` converts a cell
holding any of these (the empty cell included) to `NaN`, even under
`dtype=str`. -/
def naSentinels : List String :=
  ["", "#N/A", "#N/A N/A", "#NA", "-1.#IND", "-1.#QNAN", "-NaN", "-nan",
   "1.#IND", "1.#QNAN", "<NA>", "N/A", "NA", "NULL", "NaN", "None",
   "n/a", "nan", "null"]

/-- One raw CSV cell under `pd.read_csv(..., dtype=str)` with the default
NA filtering: an NA-sentinel cell reads back as `NaN`, anything else as
the string itself. -/
def readCell (raw : String) : PValue :=
  if raw ∈ naSentinels then .na else .text raw

/-- One raw CSV data line against a header of `ncols` columns:
`on_bad_lines="skip"` drops lines with too many fields; short lines are
padded with `NaN`. -/
def readRow (ncols : Nat) (row : List String) : Option (List PValue) :=
  if ncols < row.length then none
  else some (row.map readCell ++ List.replicate (ncols - row.length) .na)

/-- The per-cell cleanup `load_large_csv_to_pd` applies inside each chunk
(line 56): `str(x) if pd.notna(x) else ""`. On a `dtype=str` chunk a
non-null cell is already a string, so it is kept; `NaN` becomes `""`. -/
def normalizeCell : PValue → PValue
  | .na => .text ""
  | .text s => .text s

/-- `load_large_csv_to_pd` (`dataset.py` lines 32–60) on the parsed lines
of `merged.csv`. `none` models an exception escaping the function: a
missing or empty input file, an invalid `chunksize`, or
`pd.concat([])` when no chunk was produced. -/
def load_large_csv_to_pd (chunkSize : Nat) (csv : List (List String)) : Option PDFrame :=
  match csv with
  | [] => none
  | header :: body =>
      if chunkSize = 0 then none
      else
        let kept := body.filterMap (readRow header.length)
        if kept.isEmpty then none
        else
          some ⟨header,
            ((chunksOf chunkSize kept).map fun ch =>
              ch.map fun r => r.map normalizeCell).flatten⟩

/-- The exception classes distinguished by `convert`'s write fallback:
`except (ImportError, ValueError, OSError)` versus anything else. -/
inductive ExcKind where
  | importError
  | valueError
  | osError
  | other
deriving DecidableEq, Repr

/-- The environment of one `convert` run: whether each of the two `mkdir`
calls raises, and the outcome of the primary and fallback
`df.to_parquet` calls (`none` = success). -/
structure ConvertEnv where
  interimMkdirFails : Bool
  rawMkdirFails : Bool
  parquetFail : Option ExcKind
  fallbackFail : Option ExcKind

/-- Observable outcome of one `convert` invocation: `raised` is an
exception propagated to the caller; `written` is the frame persisted by
the parquet write that succeeded (`true` marks the fallback settings);
`errorLogged` records the `logger.error("Conversion failed: ...")` line of
the top-level handler. -/
structure ConvertResult where
  raised : Option ExcKind
  written : Option (PDFrame × Bool)
  errorLogged : Bool
deriving DecidableEq

/-- `df[col].astype(str)` on a cell of a `dtype=str` frame: a string cell
is unchanged; a `NaN` cell would render as `"nan"`. On text cells this
never raises, so the per-column `except` fallback of lines 219–221 —
which on such cells computes the same strings — is not reached. -/
def astypeStr : PValue → PValue
  | .na => .text "nan"
  | .text s => .text s

/-- The `convert` command (`dataset.py` lines 190–245). The two `mkdir`
calls on lines 205 and 207 run before the `try` block, so their failure
propagates (modelled as an `OSError`); every later failure is caught
either by the parquet fallback or by the top-level handler. `csv` is the
parsed content of `merged.csv`, `none` when the file is absent. -/
def convert (env : ConvertEnv) (chunkSize : Nat)
    (csv : Option (List (List String))) : ConvertResult :=
  if env.interimMkdirFails then ⟨some .osError, none, false⟩
  else if env.rawMkdirFails then ⟨some .osError, none, false⟩
  else
    match csv with
    | none => ⟨none, none, true⟩
    | some lines =>
        match load_large_csv_to_pd chunkSize lines with
        | none => ⟨none, none, true⟩
        | some df =>
            let df2 : PDFrame := ⟨df.cols, df.rows.map fun r => r.map astypeStr⟩
            match env.parquetFail with
            | none => ⟨none, some (df2, false), false⟩
            | some k =>
                if k = .importError ∨ k = .valueError ∨ k = .osError then
                  match env.fallbackFail with
                  | none => ⟨none, some (df2, true), false⟩
                  | some _ => ⟨none, none, true⟩
                else ⟨none, none, true⟩

/-! ## Concrete instances used by the claim theorems -/

/-- A benign fetch environment used to instantiate hypotheses of the pull
theorems at concrete inputs. -/
def demoEnv : FetchEnv := ⟨fun _ => some ⟨"null", .null⟩, 5, false⟩

/-- The response used to refute C5: raw bytes with interior whitespace,
parsing to a small object. -/
def c5resp : Response := ⟨"\x7b\"a\": 1\x7d", .obj [("a", .num 1)]⟩

/-- A fetch environment returning `c5resp` for every request. -/
def c5env : FetchEnv := ⟨fun _ => some c5resp, 1, true⟩

/-- The two-file input refuting C3: the field `b` first appears in the
second batch when `chunkSize = 1`. -/
def c3files : List PageFile :=
  [.withList [[("a", .str "1")]], .withList [[("a", .str "2"), ("b", .str "3")]]]

/-- The environment used to instantiate the convert theorems: healthy
directories, successful primary write. -/
def c6env : ConvertEnv := ⟨false, false, none, none⟩

/-- The header of the witness CSV. -/
def c6csvHeader : List String := ["id", "title"]

/-- The body of the witness CSV: one line with an empty cell, one with
mixed text, one with an NA-sentinel cell, one overlong line (dropped by
`on_bad_lines="skip"`), one short line (padded). -/
def c6csvBody : List (List String) :=
  [["3", ""], ["abc", "True"], ["None", "7"], ["1", "2", "3"], ["x"]]

/-- The frame convert is expected to write for the witness CSV. -/
def c6frame : PDFrame :=
  ⟨c6csvHeader, [[.text "3", .text ""], [.text "abc", .text "True"],
    [.text "", .text "7"], [.text "x", .text ""]]⟩

/-! ## Lemmas about the pull loop -/

theorem lookup_cons (i j : Int) (c : α) (l : List (Int × α)) :
    ((j, c) :: l).lookup i = if i == j then some c else l.lookup i := by
  simp only [List.lookup]
  cases h : i == j <;> simp

theorem lookup_cons_ne {i j : Int} (c : α) (l : List (Int × α)) (h : i ≠ j) :
    ((j, c) :: l).lookup i = l.lookup i := by
  rw [lookup_cons, if_neg (by simpa using h)]

theorem mem_intRange {s e i : Int} : i ∈ intRange s e ↔ s ≤ i ∧ i < e := by
  simp only [intRange, List.mem_map, List.mem_range]
  constructor
  · rintro ⟨k, hk, rfl⟩
    omega
  · intro h
    exact ⟨(i - s).toNat, by omega, by omega⟩

theorem nodup_intRange (s e : Int) : (intRange s e).Nodup := by
  unfold intRange
  exact (List.nodup_range _).map fun a b h => by omega

theorem intRange_concat {s e : Int} (h : s < e) :
    intRange s e = intRange s (e - 1) ++ [e - 1] := by
  have hn : (e - s).toNat = (e - 1 - s).toNat + 1 := by omega
  unfold intRange
  rw [hn, List.range_succ, List.map_append]
  simp only [List.map_cons, List.map_nil, List.append_cancel_left_eq, List.cons.injEq, and_true]
  omega

theorem pullStep_params (env : FetchEnv) (force : Bool) (st : PullLoopState) (i : Int) :
    ∃ q, (pullStep env force st i).params = { st.params with page := q } := by
  unfold pullStep
  split
  · exact ⟨st.params.page, rfl⟩
  · cases env.fetch { st.params with page := some (toString i) } <;>
      exact ⟨some (toString i), rfl⟩

theorem pullFold_params (env : FetchEnv) (force : Bool) :
    ∀ (L : List Int) (st : PullLoopState),
      ∃ q, (L.foldl (pullStep env force) st).params = { st.params with page := q } := by
  intro L
  induction L with
  | nil => exact fun st => ⟨st.params.page, rfl⟩
  | cons i L ih =>
      intro st
      obtain ⟨q1, hq1⟩ := pullStep_params env force st i
      obtain ⟨q2, hq2⟩ := ih (pullStep env force st i)
      exact ⟨q2, by rw [List.foldl_cons, hq2, hq1]⟩

/-- With `force = true` the skip branch is never taken: each step sets
`params["page"]` and calls the Fetcher. -/
theorem pullStep_force (env : FetchEnv) (st : PullLoopState) (i : Int) :
    (pullStep env true st i).params = { st.params with page := some (toString i) } ∧
    (pullStep env true st i).fetchCalls =
      st.fetchCalls ++ [{ st.params with page := some (toString i) }] := by
  unfold pullStep
  simp only [Bool.not_true, Bool.and_false, Bool.false_eq_true, if_false]
  cases env.fetch { st.params with page := some (toString i) } <;> exact ⟨rfl, rfl⟩

/-- With `force = true`, the fetch calls of a run are the module-level
mapping with `page` set to each index in turn. -/
theorem pullFold_fetchCalls (env : FetchEnv) :
    ∀ (L : List Int) (st : PullLoopState),
      (L.foldl (pullStep env true) st).fetchCalls =
        st.fetchCalls ++ L.map fun i => { st.params with page := some (toString i) } := by
  intro L
  induction L with
  | nil => simp
  | cons i L ih =>
      intro st
      obtain ⟨hp, hc⟩ := pullStep_force env st i
      rw [List.foldl_cons, ih, hp, hc]
      simp

/-- With `force = true`, after the loop the mapping holds the `page` entry
of the last index. -/
theorem pullFold_last_params (env : FetchEnv) (L : List Int) (i : Int) (st : PullLoopState) :
    ((L ++ [i]).foldl (pullStep env true) st).params =
      { st.params with page := some (toString i) } := by
  rw [List.foldl_append]
  simp only [List.foldl_cons, List.foldl_nil]
  obtain ⟨q, hq⟩ := pullFold_params env true L st
  obtain ⟨hp, _⟩ := pullStep_force env (L.foldl (pullStep env true) st) i
  rw [hp, hq]

/-- Page files at indices outside the processed list are untouched. -/
theorem pullFold_lookup_notMem (env : FetchEnv) (force : Bool) :
    ∀ (L : List Int) (st : PullLoopState) (i : Int), i ∉ L →
      ((L.foldl (pullStep env force) st).fs.pages.lookup i) = st.fs.pages.lookup i := by
  intro L
  induction L with
  | nil => intro st i _; rfl
  | cons j L ih =>
      intro st i hi
      have hij : i ≠ j := fun h => hi (h ▸ List.mem_cons_self j L)
      have hiL : i ∉ L := fun h => hi (List.mem_cons_of_mem j h)
      rw [List.foldl_cons, ih _ i hiL]
      unfold pullStep
      split
      · rfl
      · cases env.fetch { st.params with page := some (toString j) } with
        | none => rfl
        | some r => exact lookup_cons_ne _ _ hij

/-- With `force = true`, an index whose fetch succeeds ends up with the
re-serialization of the parsed payload on disk. -/
theorem pullFold_content (env : FetchEnv) :
    ∀ (L : List Int) (st : PullLoopState), L.Nodup →
      ∀ i ∈ L, ∀ r, env.fetch { st.params with page := some (toString i) } = some r →
        ((L.foldl (pullStep env true) st).fs.pages.lookup i) = some (dumps r.json) := by
  intro L
  induction L with
  | nil => intro _ _ i hi; exact absurd hi (List.not_mem_nil i)
  | cons j L ih =>
      intro st hnd i hi r hr
      have hndL : L.Nodup := hnd.of_cons
      have hjL : j ∉ L := (List.nodup_cons.mp hnd).1
      rw [List.foldl_cons]
      rcases List.mem_cons.mp hi with rfl | hiL
      · have hstep : (pullStep env true st i).fs.pages = (i, dumps r.json) :: st.fs.pages := by
          unfold pullStep
          simp only [Bool.not_true, Bool.and_false, Bool.false_eq_true, if_false, hr]
        rw [pullFold_lookup_notMem env true L _ i hjL, hstep, lookup_cons, if_pos (by simp)]
      · obtain ⟨hp, _⟩ := pullStep_force env st j
        exact ih _ hndL i hiL r (by rw [hp]; exact hr)

/-- With `force = false`, a loop over indices whose files all exist skips
every index: the state is unchanged. -/
theorem pullFold_skip (env : FetchEnv) :
    ∀ (L : List Int) (st : PullLoopState),
      (∀ i ∈ L, ((st.fs.pages.lookup i).isSome)) →
      L.foldl (pullStep env false) st = st := by
  intro L
  induction L with
  | nil => intro st _; rfl
  | cons i L ih =>
      intro st hall
      have hstep : pullStep env false st i = st := by
        unfold pullStep
        rw [if_pos (by simp [hall i (List.mem_cons_self i L)])]
      rw [List.foldl_cons, hstep]
      exact ih st fun j hj => hall j (List.mem_cons_of_mem i hj)

/-- With `force = false`, a run over fresh indices in which every fetch
succeeds writes each index exactly once, in order, and leaves a page file
at every index. -/
theorem pullFold_fresh (env : FetchEnv) :
    ∀ (L : List Int) (st : PullLoopState), L.Nodup →
      (∀ i ∈ L, st.fs.pages.lookup i = none) →
      (∀ p, (env.fetch p).isSome) →
      ((L.foldl (pullStep env false) st).writes = st.writes ++ L ∧
        ∀ i ∈ L, (((L.foldl (pullStep env false) st).fs.pages.lookup i).isSome)) := by
  intro L
  induction L with
  | nil => intro st _ _ _; exact ⟨by simp, by simp⟩
  | cons j L ih =>
      intro st hnd hfresh hfetch
      have hndL : L.Nodup := hnd.of_cons
      have hjL : j ∉ L := (List.nodup_cons.mp hnd).1
      obtain ⟨r, hr⟩ := Option.isSome_iff_exists.mp
        (hfetch { st.params with page := some (toString j) })
      have hstep : pullStep env false st j =
          { fs := { st.fs with pages := (j, dumps r.json) :: st.fs.pages },
            params := { st.params with page := some (toString j) },
            fetchCalls := st.fetchCalls ++ [{ st.params with page := some (toString j) }],
            writes := st.writes ++ [j] } := by
        unfold pullStep
        rw [if_neg (by simp [hfresh j (List.mem_cons_self j L)]), hr]
      have hfreshL : ∀ i ∈ L, ((pullStep env false st j).fs.pages.lookup i) = none := by
        intro i hi
        have hij : i ≠ j := fun h => hjL (h ▸ hi)
        rw [hstep]
        simp only
        rw [lookup_cons_ne _ _ hij]
        exact hfresh i (List.mem_cons_of_mem j hi)
      obtain ⟨hw, hlook⟩ := ih (pullStep env false st j) hndL hfreshL hfetch
      refine ⟨by rw [List.foldl_cons, hw, hstep]; simp, ?_⟩
      intro i hi
      rcases List.mem_cons.mp hi with rfl | hiL
      · rw [List.foldl_cons, pullFold_lookup_notMem env false L _ i hjL, hstep]
        simp only
        rw [lookup_cons, if_pos (by simp)]
        rfl
      · rw [List.foldl_cons]
        exact hlook i hiL

/-! ## Claims about the pull stage -/

/-- C2: for every valid range with `startPage < endPage` in which every
fetch succeeds, a first run of the pull stage over fresh indices writes
exactly one page file per index in `[startPage, endPage)` (the write log
is exactly that range, and a file exists at every index afterwards), and a
second run over the same range with `force = false` performs zero
additional file writes. -/
theorem C2_pull_idempotent (env : FetchEnv) (fs0 : FileStore) (params0 : Params)
    (s e : Int) (hse : s < e)
    (hfresh : ∀ i ∈ intRange s e, fs0.pages.lookup i = none)
    (hfetch : ∀ p, (env.fetch p).isSome) :
    (pull env fs0 params0 s (some e) false).writes = intRange s e ∧
    (∀ i ∈ intRange s e,
      (((pull env fs0 params0 s (some e) false).fs.pages.lookup i).isSome)) ∧
    (pull env (pull env fs0 params0 s (some e) false).fs
      (pull env fs0 params0 s (some e) false).params s (some e) false).writes = [] := by
  have hnot : ¬ e ≤ s := by omega
  simp only [pull, if_neg hnot, pullLoop]
  obtain ⟨hw, hlook⟩ := pullFold_fresh env (intRange s e)
    ⟨{ fs0 with rawDirExists := true }, params0, [], []⟩ (nodup_intRange s e) hfresh hfetch
  refine ⟨by rw [hw]; simp, hlook, ?_⟩
  generalize List.foldl (pullStep env false)
    (⟨⟨true, fs0.pages⟩, params0, [], []⟩ : PullLoopState) (intRange s e) = X at hlook ⊢
  rw [pullFold_skip env (intRange s e) ⟨⟨true, X.fs.pages⟩, X.params, [], []⟩ hlook]

/-- C2 witness: the theorem applied to a two-page range with an
always-successful fetch over an empty page store. -/
theorem C2_witness :
    (pull demoEnv ⟨false, []⟩ FETCHER_BASE_PARAMS 0 (some 2) false).writes = intRange 0 2 ∧
    (∀ i ∈ intRange 0 2,
      (((pull demoEnv ⟨false, []⟩ FETCHER_BASE_PARAMS 0 (some 2) false).fs.pages.lookup i).isSome)) ∧
    (pull demoEnv (pull demoEnv ⟨false, []⟩ FETCHER_BASE_PARAMS 0 (some 2) false).fs
      (pull demoEnv ⟨false, []⟩ FETCHER_BASE_PARAMS 0 (some 2) false).params 0 (some 2) false).writes = [] :=
  C2_pull_idempotent demoEnv ⟨false, []⟩ FETCHER_BASE_PARAMS 0 2 (by norm_num)
    (by decide) (fun _ => rfl)

/-- C5 counterexample: the claim says the bytes written to the page file
equal the bytes of the fetched payload. For a response whose raw body is
`{"a": 1}` (with a space) — a body that indeed parses to the object the
code sees — the file receives `orjson.dumps(response.json())`, which is
`{"a":1}`, different bytes. -/
theorem C5_counterexample :
    json_parse c5resp.content = some c5resp.json ∧
    (pull c5env ⟨true, []⟩ FETCHER_BASE_PARAMS 0 (some 1) true).fs.pages.lookup 0 =
      some (dumps c5resp.json) ∧
    dumps c5resp.json ≠ c5resp.content := by
  refine ⟨by decide, by decide, by decide⟩

/-- C5 (amended): for every page index whose fetch succeeds, the pull
stage persists `orjson.dumps(response.json())` — the re-serialization of
the parsed payload, not the raw response bytes — to the path derived from
the index. -/
theorem C5_reserialized (env : FetchEnv) (fs0 : FileStore) (params0 : Params)
    (s e i : Int) (r : Response) (hi : i ∈ intRange s e)
    (hr : env.fetch { params0 with page := some (toString i) } = some r) :
    ((pull env fs0 params0 s (some e) true).fs.pages.lookup i) = some (dumps r.json) := by
  have hse : s < e := by
    have := mem_intRange.mp hi
    omega
  have hnot : ¬ e ≤ s := by omega
  simp only [pull, if_neg hnot, pullLoop]
  exact pullFold_content env (intRange s e) _ (nodup_intRange s e) i hi r hr

/-- C5 witness: the amended theorem applied to the one-page range with
the concrete response. -/
theorem C5_witness :
    (pull c5env ⟨true, []⟩ FETCHER_BASE_PARAMS 0 (some 1) true).fs.pages.lookup 0 =
      some (dumps c5resp.json) :=
  C5_reserialized c5env ⟨true, []⟩ FETCHER_BASE_PARAMS 0 1 0 c5resp (by decide) rfl

/-- C8 counterexample: the claim says an invalid range (`endPage ≤
startPage`) causes a configuration error with no other side effect before
returning. Starting from a state in which the raw-data directory does not
exist, the invalid-range run still creates it, because
`RAW_DATA_DIR.mkdir(parents=True, exist_ok=True)` runs before the range
check. -/
theorem C8_counterexample :
    (FileStore.mk false []).rawDirExists = false ∧
    (pull demoEnv ⟨false, []⟩ FETCHER_BASE_PARAMS 1 (some 0) false).configError = true ∧
    (pull demoEnv ⟨false, []⟩ FETCHER_BASE_PARAMS 1 (some 0) false).fs.rawDirExists = true :=
  ⟨rfl, rfl, rfl⟩

/-- C8 (amended): for every pull invocation with an explicit `endPage ≤
startPage`, the stage reports a configuration error and performs no
work — no fetch call, no file write, page files and the parameter mapping
unchanged — except that the raw-data directory is created (if absent)
before the validation runs. -/
theorem C8_invalid_range (env : FetchEnv) (fs0 : FileStore) (params0 : Params)
    (s e : Int) (force : Bool) (h : e ≤ s) :
    (pull env fs0 params0 s (some e) force).configError = true ∧
    (pull env fs0 params0 s (some e) force).fetchCalls = [] ∧
    (pull env fs0 params0 s (some e) force).writes = [] ∧
    (pull env fs0 params0 s (some e) force).fs.pages = fs0.pages ∧
    (pull env fs0 params0 s (some e) force).params = params0 ∧
    (pull env fs0 params0 s (some e) force).fs.rawDirExists = true := by
  simp [pull, if_pos h]

/-- C8 witness: the amended theorem applied to the inverted range
`startPage = 1`, `endPage = 0`. -/
theorem C8_witness :
    (pull demoEnv ⟨false, []⟩ FETCHER_BASE_PARAMS 1 (some 0) false).configError = true ∧
    (pull demoEnv ⟨false, []⟩ FETCHER_BASE_PARAMS 1 (some 0) false).fetchCalls = [] ∧
    (pull demoEnv ⟨false, []⟩ FETCHER_BASE_PARAMS 1 (some 0) false).writes = [] ∧
    (pull demoEnv ⟨false, []⟩ FETCHER_BASE_PARAMS 1 (some 0) false).fs.pages =
      (FileStore.mk false []).pages ∧
    (pull demoEnv ⟨false, []⟩ FETCHER_BASE_PARAMS 1 (some 0) false).params =
      FETCHER_BASE_PARAMS ∧
    (pull demoEnv ⟨false, []⟩ FETCHER_BASE_PARAMS 1 (some 0) false).fs.rawDirExists = true :=
  C8_invalid_range demoEnv ⟨false, []⟩ FETCHER_BASE_PARAMS 1 0 false (by norm_num)

/-- C9: the pull stage passes the single module-level parameter mapping
into every fetch call, with only its `page` entry rewritten per index —
every call in a `force` run over `[s, e)` receives the mapping with
`page = str(i)` and the base entries of the module-level dict — and
after the run the shared mapping still carries the `page` entry of the
last processed index, `e - 1`. -/
theorem C9_shared_params (env : FetchEnv) (fs0 : FileStore) (params0 : Params)
    (s e : Int) (hse : s < e) :
    (pull env fs0 params0 s (some e) true).fetchCalls =
      (intRange s e).map (fun i => { params0 with page := some (toString i) }) ∧
    (pull env fs0 params0 s (some e) true).params =
      { params0 with page := some (toString (e - 1)) } := by
  have hnot : ¬ e ≤ s := by omega
  simp only [pull, if_neg hnot, pullLoop]
  constructor
  · rw [pullFold_fetchCalls env (intRange s e) ⟨{ fs0 with rawDirExists := true }, params0, [], []⟩]
    simp
  · rw [intRange_concat hse]
    exact pullFold_last_params env (intRange s (e - 1)) (e - 1)
      ⟨{ fs0 with rawDirExists := true }, params0, [], []⟩

/-- C9 witness: the theorem applied to the range `[0, 2)`. -/
theorem C9_witness :
    (pull demoEnv ⟨false, []⟩ FETCHER_BASE_PARAMS 0 (some 2) true).fetchCalls =
      (intRange 0 2).map (fun i => { FETCHER_BASE_PARAMS with page := some (toString i) }) ∧
    (pull demoEnv ⟨false, []⟩ FETCHER_BASE_PARAMS 0 (some 2) true).params =
      { FETCHER_BASE_PARAMS with page := some (toString ((2 : Int) - 1)) } :=
  C9_shared_params demoEnv ⟨false, []⟩ FETCHER_BASE_PARAMS 0 2 (by norm_num)

/-! ## Lemmas about the merge loop -/

theorem addNewKeys_nil (a : List String) : addNewKeys a [] = a := rfl

theorem addNewKeys_cons (a : List String) (k : String) (ks : List String) :
    addNewKeys a (k :: ks) = addNewKeys (if k ∈ a then a else a ++ [k]) ks := rfl

theorem addNewKeys_append (a xs ys : List String) :
    addNewKeys a (xs ++ ys) = addNewKeys (addNewKeys a xs) ys := by
  simp [addNewKeys, List.foldl_append]

theorem mem_addNewKeys : ∀ (ks a : List String) (x : String),
    x ∈ addNewKeys a ks ↔ x ∈ a ∨ x ∈ ks := by
  intro ks
  induction ks with
  | nil => intro a x; simp [addNewKeys]
  | cons k ks ih =>
      intro a x
      rw [addNewKeys_cons, ih]
      by_cases h : k ∈ a
      · rw [if_pos h]
        simp only [List.mem_cons]
        constructor
        · rintro (h1 | h2)
          · exact Or.inl h1
          · exact Or.inr (Or.inr h2)
        · rintro (h1 | rfl | h2)
          · exact Or.inl h1
          · exact Or.inl h
          · exact Or.inr h2
      · rw [if_neg h]
        simp only [List.mem_append, List.mem_singleton, List.mem_cons]
        tauto

theorem addNewKeys_assoc : ∀ (ks a b : List String),
    addNewKeys a (addNewKeys b ks) = addNewKeys (addNewKeys a b) ks := by
  intro ks
  induction ks with
  | nil => intro a b; rfl
  | cons k ks ih =>
      intro a b
      rw [addNewKeys_cons b k ks, ih, addNewKeys_cons (addNewKeys a b) k ks]
      congr 1
      by_cases hb : k ∈ b
      · rw [if_pos hb, if_pos ((mem_addNewKeys b a k).mpr (Or.inr hb))]
      · rw [if_neg hb, addNewKeys_append, addNewKeys_cons, addNewKeys_nil]

theorem foldl_addNewKeys (recs : List Record) : ∀ (a b : List String),
    addNewKeys a (recs.foldl (fun x r => addNewKeys x (recKeys r)) b) =
      recs.foldl (fun x r => addNewKeys x (recKeys r)) (addNewKeys a b) := by
  induction recs with
  | nil => intro a b; rfl
  | cons r recs ih =>
      intro a b
      rw [List.foldl_cons, List.foldl_cons, ih, addNewKeys_assoc]

theorem addNewKeys_unionCols (a : List String) (recs : List Record) :
    addNewKeys a (unionCols recs) =
      recs.foldl (fun x r => addNewKeys x (recKeys r)) a := by
  rw [unionCols, foldl_addNewKeys, addNewKeys_nil]

theorem batchRecords_nil : batchRecords [] = [] := rfl

theorem batchRecords_cons (f : PageFile) (c : List PageFile) :
    batchRecords (f :: c) = recsOf f ++ batchRecords c := by
  simp [batchRecords]

/-- The frame built from one batch's surviving files: columns are the
union of all its records' keys in first-appearance order, rows are the
concatenation of the records. -/
theorem filterMap_fold : ∀ (c : List PageFile) (acc : DF),
    (c.filterMap fileToDF).foldl
        (fun a d => ⟨addNewKeys a.cols d.cols, a.recs ++ d.recs⟩) acc =
      ⟨(batchRecords c).foldl (fun x r => addNewKeys x (recKeys r)) acc.cols,
        acc.recs ++ batchRecords c⟩ := by
  intro c
  induction c with
  | nil => intro acc; cases acc; simp [batchRecords]
  | cons f c ih =>
      intro acc
      cases f with
      | parseError => simpa [List.filterMap_cons, fileToDF, batchRecords_cons, recsOf] using ih acc
      | noList => simpa [List.filterMap_cons, fileToDF, batchRecords_cons, recsOf] using ih acc
      | badList => simpa [List.filterMap_cons, fileToDF, batchRecords_cons, recsOf] using ih acc
      | withList recs =>
          by_cases hr : recs.isEmpty
          · have : recs = [] := List.isEmpty_iff.mp hr
            subst this
            simpa [List.filterMap_cons, fileToDF, batchRecords_cons, recsOf] using ih acc
          · rw [batchRecords_cons]
            simp only [List.filterMap_cons, fileToDF, hr, if_neg, Bool.false_eq_true,
              not_false_eq_true, List.foldl_cons]
            rw [ih ⟨addNewKeys acc.cols (mkDF recs).cols, acc.recs ++ (mkDF recs).recs⟩]
            simp only [mkDF, recsOf]
            rw [List.foldl_append, addNewKeys_unionCols]
            simp [List.append_assoc]

theorem dfConcat_filterMap (c : List PageFile) :
    dfConcat (c.filterMap fileToDF) = ⟨batchCols c, batchRecords c⟩ := by
  rw [dfConcat, filterMap_fold c ⟨[], []⟩]
  simp [batchCols, unionCols]

theorem filterMap_empty_iff (c : List PageFile) :
    c.filterMap fileToDF = [] ↔ batchRecords c = [] := by
  induction c with
  | nil => simp [batchRecords]
  | cons f c ih =>
      cases f with
      | parseError => simpa [List.filterMap_cons, fileToDF, batchRecords_cons, recsOf] using ih
      | noList => simpa [List.filterMap_cons, fileToDF, batchRecords_cons, recsOf] using ih
      | badList => simpa [List.filterMap_cons, fileToDF, batchRecords_cons, recsOf] using ih
      | withList recs =>
          by_cases hr : recs.isEmpty
          · have : recs = [] := List.isEmpty_iff.mp hr
            subst this
            simpa [List.filterMap_cons, fileToDF, batchRecords_cons, recsOf] using ih
          · have : recs ≠ [] := fun h => by simp [h] at hr
            simp [List.filterMap_cons, fileToDF, hr, batchRecords_cons, recsOf,
              List.append_eq_nil, this]

theorem chunksOfGo_flatten (n : Nat) : ∀ (fuel : Nat) (l : List α),
    l.length ≤ fuel → (chunksOfGo n fuel l).flatten = l := by
  intro fuel
  induction fuel with
  | zero =>
      intro l hl
      have : l = [] := List.length_eq_zero.mp (Nat.le_zero.mp hl)
      subst this
      rfl
  | succ fuel ih =>
      intro l hl
      match l with
      | [] => rfl
      | x :: xs =>
          rw [chunksOfGo]
          by_cases hn : n = 0
          · simp [hn]
          · rw [if_neg hn, List.flatten_cons,
              ih ((x :: xs).drop n)
                (by simp only [List.length_drop, List.length_cons] at hl ⊢; omega)]
            exact List.take_append_drop n (x :: xs)

theorem chunksOf_flatten (n : Nat) (l : List α) : (chunksOf n l).flatten = l :=
  chunksOfGo_flatten n l.length l le_rfl

/-- A batch with data is written: concatenated frame, row-count update,
and one `to_csv` call matching the spec-side event. -/
theorem mergeChunkStep_data (st : MergeState) (c : List PageFile)
    (hc : chunkHasData c = true) :
    mergeChunkStep st c =
      { firstChunk := false,
        totalRows := st.totalRows + (batchRecords c).length,
        events := st.events ++ [specEvent st.firstChunk c] } := by
  have hne : batchRecords c ≠ [] := by
    simp only [chunkHasData, Bool.not_eq_true', List.isEmpty_eq_false] at hc
    exact hc
  have hfm : (c.filterMap fileToDF).isEmpty = false := by
    rw [List.isEmpty_eq_false]
    exact fun h => hne ((filterMap_empty_iff c).mp h)
  by_cases hf : st.firstChunk <;>
    simp [mergeChunkStep, hfm, dfConcat_filterMap, dfCsvRows, specEvent, hf]

/-- A batch without data leaves the merge state unchanged. -/
theorem mergeChunkStep_empty (st : MergeState) (c : List PageFile)
    (hc : chunkHasData c = false) :
    mergeChunkStep st c = st := by
  have hbr : batchRecords c = [] := by
    simp only [chunkHasData, Bool.not_eq_false', List.isEmpty_iff] at hc
    exact hc
  have hfm : (c.filterMap fileToDF).isEmpty = true :=
    List.isEmpty_iff.mpr ((filterMap_empty_iff c).mpr hbr)
  simp [mergeChunkStep, hfm]

/-- The merge loop writes exactly the spec-side events and counts exactly
the batch record totals. -/
theorem mergeFold : ∀ (chunks : List (List PageFile)) (st : MergeState),
    (chunks.foldl mergeChunkStep st).events = st.events ++ specEvents st.firstChunk chunks ∧
    (chunks.foldl mergeChunkStep st).totalRows =
      st.totalRows + (chunks.map fun c => (batchRecords c).length).sum := by
  intro chunks
  induction chunks with
  | nil => intro st; simp [specEvents]
  | cons c cs ih =>
      intro st
      by_cases hc : chunkHasData c
      · rw [List.foldl_cons, mergeChunkStep_data st c hc]
        obtain ⟨h1, h2⟩ := ih ⟨false, st.totalRows + (batchRecords c).length,
          st.events ++ [specEvent st.firstChunk c]⟩
        constructor
        · rw [h1]
          simp [specEvents, hc, List.append_assoc]
        · rw [h2]
          simp only [List.map_cons, List.sum_cons]
          omega
      · have hc2 : chunkHasData c = false := Bool.not_eq_true _ |>.mp hc
        have hbr : batchRecords c = [] := by
          simp only [chunkHasData, Bool.not_eq_false', List.isEmpty_iff] at hc2
          exact hc2
        rw [List.foldl_cons, mergeChunkStep_empty st c hc2]
        obtain ⟨h1, h2⟩ := ih st
        constructor
        · rw [h1]
          simp [specEvents, hc2]
        · rw [h2]
          simp [hbr]

theorem merge_events (chunkSize : Nat) (files : List PageFile) :
    (merge chunkSize files).events = specEvents true (chunksOf chunkSize files) := by
  by_cases hf : files.isEmpty
  · have : files = [] := List.isEmpty_iff.mp hf
    subst this
    simp [merge, chunksOf, chunksOfGo, specEvents]
  · simp only [merge, hf, Bool.false_eq_true, if_false]
    exact (mergeFold (chunksOf chunkSize files) ⟨true, 0, []⟩).1

theorem batchRecords_length (c : List PageFile) :
    (batchRecords c).length = (c.map listLen).sum := by
  rw [batchRecords, List.length_flatten, List.map_map]
  rfl

theorem chunks_sum (n : Nat) (files : List PageFile) :
    ((chunksOf n files).map fun c => (batchRecords c).length).sum =
      (files.map listLen).sum := by
  simp only [batchRecords_length]
  conv_rhs => rw [← chunksOf_flatten n files]
  rw [List.map_flatten, List.sum_flatten, List.map_map]
  rfl

theorem merge_totalRows (chunkSize : Nat) (files : List PageFile) :
    (merge chunkSize files).totalRows = (files.map listLen).sum := by
  by_cases hf : files.isEmpty
  · have : files = [] := List.isEmpty_iff.mp hf
    subst this
    simp [merge]
  · simp only [merge, hf, Bool.false_eq_true, if_false]
    rw [(mergeFold (chunksOf chunkSize files) ⟨true, 0, []⟩).2, chunks_sum]
    simp

theorem specEvents_false_header : ∀ (cs : List (List PageFile)),
    ∀ ev ∈ specEvents false cs, ev.header = none := by
  intro cs
  induction cs with
  | nil => intro ev hev; simp [specEvents] at hev
  | cons c cs ih =>
      intro ev hev
      by_cases hc : chunkHasData c
      · rw [specEvents, if_pos hc] at hev
        rcases List.mem_cons.mp hev with rfl | h2
        · rfl
        · exact ih ev h2
      · rw [specEvents, if_neg hc] at hev
        exact ih ev hev

theorem specEvents_true_structure : ∀ (cs : List (List PageFile))
    (e : WriteEvent) (rest : List WriteEvent), specEvents true cs = e :: rest →
    e.header.isSome ∧ ∀ ev ∈ rest, ev.header = none := by
  intro cs
  induction cs with
  | nil => intro e rest h; simp [specEvents] at h
  | cons c cs ih =>
      intro e rest h
      by_cases hc : chunkHasData c
      · rw [specEvents, if_pos hc] at h
        injection h with h1 h2
        subst h1
        subst h2
        exact ⟨rfl, specEvents_false_header cs⟩
      · rw [specEvents, if_neg hc] at h
        exact ih e rest h

/-! ## Claims about the merge stage -/

/-- C1: for every merge run, the total row count — both the
`total_rows` counter the stage reports and the number of data rows
actually written across all `to_csv` calls — equals the sum, over all
successfully parsed page files, of the lengths of their `list` fields; a
file that fails to parse, lacks the `list` field, or carries a malformed
list contributes zero rows, and no file aborts the run (`merge` is a total
function of the file list). -/
theorem C1_merge_row_count (chunkSize : Nat) (files : List PageFile)
    (_hpos : 0 < chunkSize) :
    (merge chunkSize files).totalRows = (files.map listLen).sum ∧
    (((merge chunkSize files).events.map fun ev => ev.rows.length).sum) =
      (files.map listLen).sum := by
  refine ⟨merge_totalRows chunkSize files, ?_⟩
  rw [merge_events]
  have hrows : ∀ (first : Bool) (cs : List (List PageFile)),
      ((specEvents first cs).map fun ev => ev.rows.length).sum =
        (cs.map fun c => (batchRecords c).length).sum := by
    intro first cs
    induction cs generalizing first with
    | nil => rfl
    | cons c cs ih =>
        by_cases hc : chunkHasData c
        · rw [specEvents, if_pos hc]
          simp only [List.map_cons, List.sum_cons, specEvent, List.length_map]
          rw [ih false]
        · have hc2 : chunkHasData c = false := Bool.not_eq_true _ |>.mp hc
          have hbr : batchRecords c = [] := by
            simp only [chunkHasData, Bool.not_eq_false', List.isEmpty_iff] at hc2
            exact hc2
          rw [specEvents, if_neg hc]
          simp only [List.map_cons, List.sum_cons, hbr, List.length_nil, Nat.zero_add]
          exact ih first
  rw [hrows, chunks_sum]

/-- C1 witness: two good pages of sizes 2 and 1, one page missing `list`,
one unparseable page, one page with an empty list, at `chunkSize = 2`. -/
theorem C1_witness :
    (merge 2 [.withList [[("a", .str "1")], [("a", .str "2")]], .noList,
      .parseError, .withList [], .withList [[("b", .str "3")]]]).totalRows =
      ([.withList [[("a", .str "1")], [("a", .str "2")]], .noList,
        .parseError, .withList [], .withList [[("b", .str "3")]]].map listLen).sum ∧
    ((merge 2 [.withList [[("a", .str "1")], [("a", .str "2")]], .noList,
      .parseError, .withList [], .withList [[("b", .str "3")]]]).events.map
        fun ev => ev.rows.length).sum =
      ([.withList [[("a", .str "1")], [("a", .str "2")]], .noList,
        .parseError, .withList [], .withList [[("b", .str "3")]]].map listLen).sum :=
  C1_merge_row_count 2 _ (by norm_num)

/-- C3 counterexample: the claim says every field name appearing in any
record of any batch appears as a column of the final table. With
`chunkSize = 1`, the header is written from the first batch only: the
final table's column list is `["a"]`, yet the field `b` occurs in a
record of the second batch (and its row is appended under the second
batch's own schema, misaligned with the header). -/
theorem C3_counterexample :
    ∃ cols rows, interimTable (merge 1 c3files) = some (cols, rows) ∧
      "b" ∈ batchCols c3files ∧ "b" ∉ cols :=
  ⟨["a"], [["1"], ["2", "3"]], by decide, by decide, by decide⟩

/-- C3 (amended): the merge run writes one `to_csv` call per non-empty
batch; each call carries the batch's records projected into that batch's
own union schema (the union of the field names seen across the records of
that batch, missing fields rendered as empty cells), and only the first
call writes a header — so the Interim Table's column schema is the union
of the field names of the first non-empty batch, and field names first
appearing in later batches never become columns. -/
theorem C3_schema_per_batch (chunkSize : Nat) (files : List PageFile)
    (_hpos : 0 < chunkSize) :
    (merge chunkSize files).events = specEvents true (chunksOf chunkSize files) :=
  merge_events chunkSize files

/-- C3 witness: the amended theorem applied to the counterexample input. -/
theorem C3_witness :
    (merge 1 c3files).events = specEvents true (chunksOf 1 c3files) :=
  C3_schema_per_batch 1 c3files (by norm_num)

/-- C4: in every merge run with at least one non-empty batch (at least
one write), the header is written exactly once, by the first `to_csv`
call; all subsequent calls append without a header — regardless of
`chunkSize` or the number of batches. -/
theorem C4_header_once (chunkSize : Nat) (files : List PageFile)
    (_hpos : 0 < chunkSize) (hne : (merge chunkSize files).events ≠ []) :
    ∃ e rest, (merge chunkSize files).events = e :: rest ∧ e.header.isSome ∧
      ∀ ev ∈ rest, ev.header = none := by
  obtain ⟨e, rest, hev⟩ := List.exists_cons_of_ne_nil hne
  have hspec : specEvents true (chunksOf chunkSize files) = e :: rest := by
    rw [← merge_events chunkSize files]
    exact hev
  obtain ⟨h1, h2⟩ := specEvents_true_structure (chunksOf chunkSize files) e rest hspec
  exact ⟨e, rest, hev, h1, h2⟩

/-- C4 witness: a three-batch run (chunkSize 1, three single-record
pages): one header write, two appends. -/
theorem C4_witness :
    ∃ e rest, (merge 1 [.withList [[("a", .str "1")]], .withList [[("a", .str "2")]],
        .withList [[("a", .str "3")]]]).events = e :: rest ∧ e.header.isSome ∧
      ∀ ev ∈ rest, ev.header = none :=
  C4_header_once 1 _ (by norm_num) (by decide)

/-- C10: when the merge stage finds at least one page file but every file
is skipped (parse error, missing `list`, malformed list) or has an empty
list, no `to_csv` call is issued — `merged.csv` is never created — and
the stage still completes normally (not through the no-input branch),
reporting zero total rows. -/
theorem C10_all_skipped (chunkSize : Nat) (files : List PageFile)
    (_hpos : 0 < chunkSize) (hne : files ≠ [])
    (hall : ∀ f ∈ files, fileToDF f = none) :
    (merge chunkSize files).events = [] ∧
    (merge chunkSize files).totalRows = 0 ∧
    (merge chunkSize files).noInput = false ∧
    interimTable (merge chunkSize files) = none := by
  have hrecs : ∀ f ∈ files, recsOf f = [] := by
    intro f hf
    have := hall f hf
    cases f with
    | parseError => rfl
    | noList => rfl
    | badList => rfl
    | withList recs =>
        simp only [fileToDF] at this
        by_cases hr : recs.isEmpty
        · simp [recsOf, List.isEmpty_iff.mp hr]
        · rw [if_neg (by simpa using hr)] at this
          exact absurd this (by simp)
  have hchunks : ∀ c ∈ chunksOf chunkSize files, chunkHasData c = false := by
    intro c hc
    have hbr : batchRecords c = [] := by
      rw [batchRecords]
      apply List.flatten_eq_nil_iff.mpr
      intro l hl
      obtain ⟨f, hf, rfl⟩ := List.mem_map.mp hl
      have hffiles : f ∈ files := by
        rw [← chunksOf_flatten chunkSize files]
        exact List.mem_flatten.mpr ⟨c, hc, hf⟩
      exact hrecs f hffiles
    simp [chunkHasData, hbr]
  have hevents : (merge chunkSize files).events = [] := by
    rw [merge_events]
    have : ∀ (first : Bool) (cs : List (List PageFile)),
        (∀ c ∈ cs, chunkHasData c = false) → specEvents first cs = [] := by
      intro first cs
      induction cs generalizing first with
      | nil => intro _; rfl
      | cons c cs ih =>
          intro hcs
          rw [specEvents, if_neg (by simp [hcs c (List.mem_cons_self c cs)])]
          exact ih first fun d hd => hcs d (List.mem_cons_of_mem c hd)
    exact this true _ hchunks
  refine ⟨hevents, ?_, ?_, ?_⟩
  · rw [merge_totalRows]
    apply List.sum_eq_zero
    intro x hx
    obtain ⟨f, hf, rfl⟩ := List.mem_map.mp hx
    simp [listLen, hrecs f hf]
  · simp [merge, List.isEmpty_eq_false.mpr hne]
  · rw [interimTable, hevents]

/-- C10 witness: three files — a parse failure, a missing `list`, and an
empty list — produce no write, zero rows, and a normal completion. -/
theorem C10_witness :
    (merge 3 [.parseError, .noList, .withList []]).events = [] ∧
    (merge 3 [.parseError, .noList, .withList []]).totalRows = 0 ∧
    (merge 3 [.parseError, .noList, .withList []]).noInput = false ∧
    interimTable (merge 3 [.parseError, .noList, .withList []]) = none :=
  C10_all_skipped 3 _ (by norm_num) (by decide) (by decide)

/-! ## Lemmas about the convert stage -/

/-- What `load_large_csv_to_pd` returns on a parseable, non-empty input:
the header as columns and every kept line cleaned cell-by-cell. -/
theorem load_characterization (chunkSize : Nat) (header : List String)
    (body : List (List String)) (df0 : PDFrame) (hcs : chunkSize ≠ 0)
    (hload : load_large_csv_to_pd chunkSize (header :: body) = some df0) :
    df0 = ⟨header, (body.filterMap (readRow header.length)).map
      fun r => r.map normalizeCell⟩ := by
  rw [load_large_csv_to_pd, if_neg hcs] at hload
  by_cases hk : (body.filterMap (readRow header.length)).isEmpty
  · rw [if_pos hk] at hload
    exact absurd hload (by simp)
  · rw [if_neg hk] at hload
    have hflat : ((chunksOf chunkSize (body.filterMap (readRow header.length))).map
        fun ch => ch.map fun r => r.map normalizeCell).flatten =
        (body.filterMap (readRow header.length)).map fun r => r.map normalizeCell := by
      rw [← List.map_flatten, chunksOf_flatten]
    injection hload with hdf
    rw [← hdf, hflat]

/-- The cleanup pipeline of the convert stage turns every raw cell into
text: an NA-sentinel cell into the empty string, every other cell into
its own content. -/
theorem astype_normalize_read (raw : String) :
    astypeStr (normalizeCell (readCell raw)) =
      PValue.text (if raw ∈ naSentinels then "" else raw) := by
  rw [readCell]
  by_cases hr : raw ∈ naSentinels
  · rw [if_pos hr, if_pos hr]
    rfl
  · rw [if_neg hr, if_neg hr]
    rfl

/-- C7 counterexample: the claim says convert never propagates an
exception. When the `INTERIM_DATA_DIR.mkdir` call on line 205 — which
runs before the `try` block — fails, the exception propagates to the
caller. -/
theorem C7_counterexample :
    (convert ⟨true, false, none, none⟩ 1000 none).raised = some ExcKind.osError := rfl

/-- C7 (amended): every failure inside the conversion body — loading,
column coercion, the parquet write and its fallback — is caught at the
top level and the stage returns without raising; only a failure of the
two directory-creation calls, which precede the `try` block, can
propagate. When both `mkdir` calls succeed, convert raises nothing, for
every input file state and every write outcome. -/
theorem C7_no_raise (env : ConvertEnv) (chunkSize : Nat)
    (csv : Option (List (List String)))
    (h1 : env.interimMkdirFails = false) (h2 : env.rawMkdirFails = false) :
    (convert env chunkSize csv).raised = none := by
  cases csv with
  | none => simp [convert, h1, h2]
  | some lines =>
      cases hload : load_large_csv_to_pd chunkSize lines with
      | none => simp [convert, h1, h2, hload]
      | some df =>
          cases hp : env.parquetFail with
          | none => simp [convert, h1, h2, hload, hp]
          | some k =>
              by_cases hk : k = ExcKind.importError ∨ k = ExcKind.valueError ∨ k = ExcKind.osError
              · cases hfb : env.fallbackFail <;> simp [convert, h1, h2, hload, hp, hfb, hk]
              · simp [convert, h1, h2, hload, hp, hk]

/-- C7 witness: the amended theorem applied to a run with healthy
directories and a missing input file. -/
theorem C7_witness : (convert ⟨false, false, none, none⟩ 1000 none).raised = none :=
  C7_no_raise ⟨false, false, none, none⟩ 1000 none rfl rfl

/-- C6 counterexample: the claim says each cell of the converted output
holds the string rendering of the source value. A source cell holding the
string `nan` — reachable, since merge writes JSON string values verbatim
into `merged.csv` — is converted by `pd.read_csv`'s default NA filtering
to `NaN` even under `dtype=str`, and the cleanup of line 56 then renders
it as the empty string: the written cell is `""`, not `"nan"`. -/
theorem C6_counterexample :
    (convert c6env 1000 (some [["id"], ["nan"]])).written =
      some (⟨["id"], [[.text ""]]⟩, false) ∧
    (PValue.text "" : PValue) ≠ .text "nan" :=
  ⟨by decide, by decide⟩

/-- C6 (amended): in every convert run that completes a write (primary or
fallback), the written frame carries the Interim Table's header as its
columns, and every kept line cell-for-cell as text: each cell is the
string of the source cell, except that an NA-sentinel source cell
(pandas' default NA set: the empty cell, `nan`, `NULL`, `None`, `N/A`,
…) becomes the empty string, as do missing cells of short lines; and
every cell of every column is text-typed. -/
theorem C6_text_columns (env : ConvertEnv) (chunkSize : Nat)
    (header : List String) (body : List (List String)) (df : PDFrame) (fb : Bool)
    (hpos : 0 < chunkSize)
    (hw : (convert env chunkSize (some (header :: body))).written = some (df, fb)) :
    df.cols = header ∧
    df.rows = body.filterMap (fun row =>
      if header.length < row.length then none
      else some ((row.map fun raw =>
          PValue.text (if raw ∈ naSentinels then "" else raw)) ++
        List.replicate (header.length - row.length) (PValue.text ""))) ∧
    ∀ row ∈ df.rows, ∀ cell ∈ row, ∃ s, cell = PValue.text s := by
  by_cases h1 : env.interimMkdirFails
  · simp [convert, h1] at hw
  by_cases h2 : env.rawMkdirFails
  · simp [convert, h1, h2] at hw
  simp only [convert, h1, h2, Bool.false_eq_true, if_false] at hw
  cases hload : load_large_csv_to_pd chunkSize (header :: body) with
  | none => rw [hload] at hw; exact absurd hw (by simp)
  | some df0 =>
      rw [hload] at hw
      have hdf0 := load_characterization chunkSize header body df0 (by omega) hload
      have hdf2 : df = ⟨df0.cols, df0.rows.map fun r => r.map astypeStr⟩ := by
        cases hp : env.parquetFail with
        | none =>
            rw [hp] at hw
            simp only [Option.some.injEq, Prod.mk.injEq] at hw
            exact hw.1.symm
        | some k =>
            rw [hp] at hw
            simp only at hw
            by_cases hk : k = ExcKind.importError ∨ k = ExcKind.valueError ∨ k = ExcKind.osError
            · rw [if_pos hk] at hw
              cases hfb : env.fallbackFail with
              | none =>
                  rw [hfb] at hw
                  simp only [Option.some.injEq, Prod.mk.injEq] at hw
                  exact hw.1.symm
              | some k2 => rw [hfb] at hw; exact absurd hw (by simp)
            · rw [if_neg hk] at hw
              exact absurd hw (by simp)
      subst hdf0
      have hclean : ∀ (row : List String),
          ((readRow header.length row).map fun r =>
            r.map fun v => astypeStr (normalizeCell v)) =
          (if header.length < row.length then none
            else some ((row.map fun raw =>
                PValue.text (if raw ∈ naSentinels then "" else raw)) ++
              List.replicate (header.length - row.length) (PValue.text ""))) := by
        intro row
        rw [readRow]
        by_cases hlen : header.length < row.length
        · rw [if_pos hlen, if_pos hlen]
          rfl
        · rw [if_neg hlen, if_neg hlen]
          simp only [Option.map_some', List.map_append, List.map_map, List.map_replicate,
            Option.some.injEq]
          congr 1
          exact List.map_congr_left fun raw _ => astype_normalize_read raw
      have hrows : df.rows = body.filterMap (fun row =>
          if header.length < row.length then none
          else some ((row.map fun raw =>
              PValue.text (if raw ∈ naSentinels then "" else raw)) ++
            List.replicate (header.length - row.length) (PValue.text ""))) := by
        rw [hdf2]
        simp only [List.map_filterMap, Option.map_map, Function.comp_def, List.map_map]
        exact List.filterMap_congr fun row _ => hclean row
      refine ⟨by rw [hdf2], hrows, ?_⟩
      intro row hrow cell hcell
      rw [hrows] at hrow
      obtain ⟨row0, _, heq⟩ := List.mem_filterMap.mp hrow
      by_cases hlen : header.length < row0.length
      · rw [if_pos hlen] at heq
        exact absurd heq (by simp)
      · rw [if_neg hlen] at heq
        injection heq with heq
        subst heq
        rcases List.mem_append.mp hcell with hmem | hmem
        · obtain ⟨s, _, rfl⟩ := List.mem_map.mp hmem
          exact ⟨if s ∈ naSentinels then "" else s, rfl⟩
        · exact ⟨"", (List.mem_replicate.mp hmem).2⟩

/-- C6 witness: the amended theorem applied to the concrete CSV, read at
`chunkSize = 2`. -/
theorem C6_witness :
    c6frame.cols = c6csvHeader ∧
    c6frame.rows = c6csvBody.filterMap (fun row =>
      if c6csvHeader.length < row.length then none
      else some ((row.map fun raw =>
          PValue.text (if raw ∈ naSentinels then "" else raw)) ++
        List.replicate (c6csvHeader.length - row.length) (PValue.text ""))) ∧
    (∀ row ∈ c6frame.rows, ∀ cell ∈ row, ∃ s, cell = PValue.text s) :=
  C6_text_columns c6env 2 c6csvHeader c6csvBody c6frame false (by norm_num) (by decide)

end Drudid
